import Mathlib

/-!
Shallow embedding of the SWIM failure-detector core
(`components/swim/src/member.rs`, `server/inbound.rs`, `server/outbound.rs`).

Hash maps are modelled as association lists (`List (String × _)`); the
randomized shuffle of `check_list` / `pingreq_targets` is modelled by
quantifying over an arbitrary permutation of the member values; the
`panic!` calls are modelled as `Except.error`; the inbound mpsc channel
consumed by `Outbound::recv_ack` is modelled as the list of items received
during the phase (an empty remainder models the phase timeout).
-/

namespace Swim

/-- Health enumeration from `member.rs`: `Alive`, `Suspect`, `Confirmed`. -/
inductive Health where
  | alive
  | suspect
  | confirmed
deriving DecidableEq, Repr

/-- Member record (the protobuf `Member` fields used by the core):
id, address, incarnation, persistent. -/
structure Member where
  id : String
  address : String
  incarnation : Nat
  persistent : Bool
deriving DecidableEq, Repr

/-- A parsed socket address (`std::net::SocketAddr` abstracted as host and
port). -/
structure SockAddr where
  host : String
  port : Nat
deriving DecidableEq, Repr

/-- Rendering of a socket address, as Rust's `format!("{}", addr)`. -/
def SockAddr.toStr (a : SockAddr) : String :=
  a.host ++ ":" ++ toString a.port

/-- Splitting of a character list at every occurrence of a separator
character (the pieces, separators removed). -/
def splitOnChar (c : Char) : List Char → List (List Char)
  | [] => [[]]
  | x :: xs =>
      if x = c then [] :: splitOnChar c xs
      else
        match splitOnChar c xs with
        | [] => [[x]]
        | y :: ys => (x :: y) :: ys

/-- Decimal value accumulated over a character list; fails on any
non-digit. -/
def digitsVal (acc : Nat) : List Char → Option Nat
  | [] => some acc
  | c :: cs => if c.isDigit then digitsVal (acc * 10 + (c.toNat - 48)) cs else none

/-- Decimal value of a non-empty all-digit character list. -/
def digitsToNat : List Char → Option Nat
  | [] => none
  | c :: cs => digitsVal 0 (c :: cs)

/-- Validity of a dotted-quad IPv4 host, used by the model of the standard
library's socket-address parser. -/
def isIPv4 (h : List Char) : Bool :=
  match (splitOnChar '.' h).map digitsToNat with
  | [some a, some b, some c, some d] =>
      decide (a ≤ 255) && decide (b ≤ 255) && decide (c ≤ 255) && decide (d ≤ 255)
  | _ => false

/-- Model of the standard library's `"host:port".parse::<SocketAddr>()`
(external to this repository): an IPv4 dotted quad, a colon, and a port
number at most 65535; anything else fails to parse. -/
def parseSocketAddr (s : String) : Option SockAddr :=
  match splitOnChar ':' s.data with
  | [h, p] =>
      if isIPv4 h then
        match digitsToNat p with
        | some n => if n ≤ 65535 then some ⟨String.mk h, n⟩ else none
        | none => none
      else none
  | _ => none

/-- Member::socket_address from `member.rs`: parse the address, and
`panic!` (modelled as `Except.error`) when it does not parse. -/
def Member.socket_address (m : Member) : Except String SockAddr :=
  match parseSocketAddr m.address with
  | some a => Except.ok a
  | none => Except.error ("Cannot parse member address: " ++ m.address)

/-- Insert-or-replace at a key in an association list; the model of
`HashMap::insert`. -/
def alUpsert (k : String) (v : α) : List (String × α) → List (String × α)
  | [] => [(k, v)]
  | (k2, v2) :: rest =>
      if k2 = k then (k, v) :: rest else (k2, v2) :: alUpsert k v rest

/-- MemberList from `member.rs`: a map from member id to Member paired with
a map from member id to Health (both `HashMap`s, modelled as association
lists). -/
structure MemberList where
  members : List (String × Member)
  health : List (String × Health)
deriving DecidableEq, Repr

namespace MemberList

/-- MemberList::new. -/
def new : MemberList := ⟨[], []⟩

/-- MemberList::insert — upsert both maps keyed by `member.id` (the Rust
function also returns the displaced member, which no claim uses). -/
def insert (ml : MemberList) (m : Member) (h : Health) : MemberList :=
  { members := alUpsert m.id m ml.members
    health := alUpsert m.id h ml.health }

/-- MemberList::health_of — look up the health by the member's id. -/
def health_of (ml : MemberList) (m : Member) : Option Health :=
  List.lookup m.id ml.health

/-- MemberList::insert_health — upsert the health map only. -/
def insert_health (ml : MemberList) (m : Member) (h : Health) : MemberList :=
  { ml with health := alUpsert m.id h ml.health }

/-- MemberList::members — the values of the member map (`HashMap::values`,
in unspecified order; permutations are handled at the shuffle). -/
def memberValues (ml : MemberList) : List Member :=
  ml.members.map Prod.snd

end MemberList

/-- PINGREQ_TARGETS constant from `member.rs`. -/
def PINGREQ_TARGETS : Nat := 5

/-- MemberList::pingreq_targets from `member.rs`, with the result of
`rng.shuffle` over the member values passed explicitly as `shuffled`:
filter out the sending member's id and the target's id, then take
`PINGREQ_TARGETS`. -/
def pingreq_targets (shuffled : List Member) (sending target : Member) :
    List Member :=
  (shuffled.filter (fun m => m.id != sending.id && m.id != target.id)).take
    PINGREQ_TARGETS

/-- Ping payload from the wire protocol: `from` and optional `forward_to`. -/
structure Ping where
  from_ : Member
  forward_to : Option Member
deriving DecidableEq, Repr

/-- Ack payload from the wire protocol: `from` and optional `forward_to`. -/
structure Ack where
  from_ : Member
  forward_to : Option Member
deriving DecidableEq, Repr

/-- Observable effect of `Inbound::process_ack` on an ACK: forward it to a
third party, hand it to the Prober through the inbound queue, or drop it. -/
inductive AckAction where
  | forwarded (dest : SockAddr) (msg : Ack)
  | queued (src : SockAddr) (msg : Ack)
  | dropped
deriving DecidableEq, Repr

/-- Inbound::process_ack from `inbound.rs`: when the ACK carries a
`forward_to` whose id is not the local member's id, parse
`forward_to.address` and re-send the ACK verbatim there (abandoning the
forward when the address does not parse); otherwise send
`(source_address, message)` to the Prober on the inbound queue. -/
def process_ack (me : Member) (src : SockAddr) (a : Ack) : AckAction :=
  match a.forward_to with
  | some fwd =>
      if me.id ≠ fwd.id then
        match parseSocketAddr fwd.address with
        | some fa => AckAction.forwarded fa a
        | none => AckAction.dropped
      else AckAction.queued src a
  | none => AckAction.queued src a

/-- Inbound::process_ping from `inbound.rs`: reply with an ACK (built from
the local member, copying the PING's `forward_to` when present) to the
observed source address, then stamp the PING's `from` with the observed
source address and insert it into the member list as Alive. Returns the
(destination, ACK) pair of the reply and the updated member list. -/
def process_ping (me : Member) (ml : MemberList) (src : SockAddr) (p : Ping) :
    (SockAddr × Ack) × MemberList :=
  let reply : Ack := { from_ := me, forward_to := p.forward_to }
  let stamped : Member := { p.from_ with address := src.toStr }
  ((src, reply), ml.insert stamped Health.alive)

/-- Events observable from one `Outbound::probe` invocation: the PING send,
each PINGREQ send, and each health write to the member list. -/
inductive Event where
  | sendPing (addr : SockAddr)
  | sendPingReq (helperId targetId : String)
  | markAlive (m : Member)
  | markSuspect (id : String)
  | markConfirmed (id : String)
deriving DecidableEq, Repr

/-- Member stored by `Outbound::recv_ack` on a matching ACK: the ACK's
`from`, with its address replaced by the observed socket source address
unless the ACK carries `forward_to`. -/
def finalAckFrom (realAddr : SockAddr) (a : Ack) : Member :=
  match a.forward_to with
  | some _ => a.from_
  | none => { a.from_ with address := realAddr.toStr }

/-- Outbound::recv_ack from `outbound.rs`, over the list of items taken
from the inbound queue during the phase (exhausting the list models the
phase timeout): discard items whose `ack.from.id` differs from
`member.id`; on the first match, insert the (possibly address-stamped)
`from` as Alive and report success. -/
def recv_ack (member : Member) (ml : MemberList) :
    List (SockAddr × Ack) → Bool × MemberList × List Event
  | [] => (false, ml, [])
  | (realAddr, a) :: rest =>
      if a.from_.id == member.id then
        let fm := finalAckFrom realAddr a
        (true, ml.insert fm Health.alive, [Event.markAlive fm])
      else recv_ack member ml rest

/-- PINGREQ sends of `Outbound::probe`: `pingreq` resolves each helper's
socket address (a `panic!`, modelled as `Except.error`, when it does not
parse) and sends a PINGREQ naming the probed member. -/
def sendPingReqs (member : Member) : List Member → Except String (List Event)
  | [] => Except.ok []
  | t :: rest =>
      match parseSocketAddr t.address with
      | none => Except.error ("Cannot parse member address: " ++ t.address)
      | some _ =>
          (sendPingReqs member rest).map
            (fun evs => Event.sendPingReq t.id member.id :: evs)

/-- Outbound::probe from `outbound.rs`: resolve the member's address
(`panic!` on failure), send a PING and wait for a matching ACK
(`pingQ`); on success return, otherwise mark the member Suspect, send
PINGREQs to the shuffled helper targets, wait again (`pingreqQ`), and on
failure mark the member Confirmed. `me` is the local self member and
`shuffled` the shuffle of the member values used by `pingreq_targets`. -/
def probe (me member : Member) (ml : MemberList) (shuffled : List Member)
    (pingQ pingreqQ : List (SockAddr × Ack)) :
    Except String (MemberList × List Event) :=
  match Member.socket_address member with
  | Except.error e => Except.error e
  | Except.ok addr =>
      match recv_ack member ml pingQ with
      | (true, ml1, evs) => Except.ok (ml1, Event.sendPing addr :: evs)
      | (false, _, _) =>
          let ml1 := ml.insert_health member Health.suspect
          let targets := pingreq_targets shuffled me member
          match sendPingReqs member targets with
          | Except.error e => Except.error e
          | Except.ok tevs =>
              match recv_ack member ml1 pingreqQ with
              | (true, ml2, evs) =>
                  Except.ok (ml2, Event.sendPing addr ::
                    Event.markSuspect member.id :: (tevs ++ evs))
              | (false, ml2, _) =>
                  Except.ok (ml2.insert_health member Health.confirmed,
                    Event.sendPing addr :: Event.markSuspect member.id ::
                      (tevs ++ [Event.markConfirmed member.id]))

/-- First item of an inbound-queue list whose ACK matches the probed
member (`ack.from.id == member.id`). -/
def firstMatch (member : Member) (q : List (SockAddr × Ack)) :
    Option (SockAddr × Ack) :=
  q.find? (fun x => x.2.from_.id == member.id)

/-- Health values written to the member list by a trace of probe events,
in order. -/
def healthEvents : List Event → List Health
  | [] => []
  | Event.markAlive _ :: rest => Health.alive :: healthEvents rest
  | Event.markSuspect _ :: rest => Health.suspect :: healthEvents rest
  | Event.markConfirmed _ :: rest => Health.confirmed :: healthEvents rest
  | Event.sendPing _ :: rest => healthEvents rest
  | Event.sendPingReq _ _ :: rest => healthEvents rest

/-- PING_TIMING_DEFAULT_MS from `outbound.rs`. -/
def PING_TIMING_DEFAULT_MS : Int := 1000

/-- PINGREQ_TIMING_DEFAULT_MS from `outbound.rs`. -/
def PINGREQ_TIMING_DEFAULT_MS : Int := 2100

/-- Timing configuration from `outbound.rs`. -/
structure Timing where
  ping_ms : Int
  pingreq_ms : Int
deriving DecidableEq, Repr

/-- Timing::default from `outbound.rs`. -/
def Timing.default : Timing :=
  { ping_ms := PING_TIMING_DEFAULT_MS
    pingreq_ms := PINGREQ_TIMING_DEFAULT_MS }

/-- Timing::protocol_period_ms from `outbound.rs`. -/
def Timing.protocol_period_ms (t : Timing) : Int :=
  t.ping_ms + t.pingreq_ms

/-- Key-set invariant of MemberList claimed by the spec: an id has an entry
in the member map exactly when it has one in the health map. -/
def keysEqInvariant (ml : MemberList) : Prop :=
  ∀ k : String, (List.lookup k ml.members).isSome = true ↔
    (List.lookup k ml.health).isSome = true

/-- Concrete member used by witnesses and counterexamples. -/
def mA : Member := { id := "a", address := "10.0.0.1:80", incarnation := 0, persistent := false }

/-- Concrete member used by witnesses and counterexamples. -/
def mB : Member := { id := "b", address := "10.0.0.2:80", incarnation := 0, persistent := false }

/-- Concrete member used by witnesses and counterexamples. -/
def mC : Member := { id := "c", address := "10.0.0.3:80", incarnation := 0, persistent := false }

/-- Concrete member whose address does not parse as a socket address. -/
def mBad : Member := { id := "x", address := "bogus", incarnation := 0, persistent := false }

/-- Concrete local self member used by witnesses and counterexamples. -/
def meW : Member := { id := "self", address := "10.0.0.9:80", incarnation := 0, persistent := false }

/-- Concrete member with `mA`'s id but a different embedded address,
as carried inside an ACK. -/
def mASpoof : Member := { id := "a", address := "9.9.9.9:9", incarnation := 1, persistent := false }

/-- Concrete observed socket source address. -/
def srcW : SockAddr := { host := "10.0.0.7", port := 9000 }

/-- Concrete ACK matching `mA` with no `forward_to`. -/
def ackFromA : Ack := { from_ := mASpoof, forward_to := none }

/-- Concrete ACK carrying a `forward_to` for `mB` (parseable address). -/
def ackFwdB : Ack := { from_ := mASpoof, forward_to := some mB }

/-- Concrete ACK carrying a `forward_to` whose address does not parse. -/
def ackBadFwd : Ack := { from_ := mASpoof, forward_to := some mBad }

/-- Concrete three-member list used by the `pingreq_targets`
counterexample. -/
def mlC7 : MemberList :=
  ((MemberList.new.insert mA Health.alive).insert mB Health.alive).insert mC Health.alive

/-- Concrete PING whose `from` carries the receiving server's own id. -/
def pSelf : Ping := { from_ := meW, forward_to := none }

/-- Result of the concrete successful ping-phase probe used by
witnesses. -/
def probeResW : MemberList × List Event :=
  (MemberList.new.insert (finalAckFrom srcW ackFromA) Health.alive,
    [Event.sendPing { host := "10.0.0.1", port := 80 },
      Event.markAlive (finalAckFrom srcW ackFromA)])

/-! Helper lemmas. -/

theorem lookup_alUpsert_self {α : Type} (k : String) (v : α) :
    ∀ l : List (String × α), List.lookup k (alUpsert k v l) = some v := by
  intro l
  induction l with
  | nil => simp [alUpsert, List.lookup]
  | cons p rest ih =>
      by_cases h : p.1 = k
      · simp [alUpsert, h, List.lookup]
      · have hb : (k == p.1) = false := beq_eq_false_iff_ne.mpr (fun he => h he.symm)
        simp [alUpsert, h, List.lookup, hb, ih]

theorem lookup_alUpsert_ne {α : Type} (k k2 : String) (v : α) (hne : k2 ≠ k) :
    ∀ l : List (String × α), List.lookup k2 (alUpsert k v l) = List.lookup k2 l := by
  intro l
  have hb : (k2 == k) = false := beq_eq_false_iff_ne.mpr hne
  induction l with
  | nil => simp [alUpsert, List.lookup, hb]
  | cons p rest ih =>
      by_cases h : p.1 = k
      · subst h
        simp [alUpsert, List.lookup, hb]
      · by_cases h2 : k2 = p.1
        · have hb2 : (k2 == p.1) = true := beq_iff_eq.mpr h2
          simp [alUpsert, h, List.lookup, hb2]
        · have hb2 : (k2 == p.1) = false := beq_eq_false_iff_ne.mpr h2
          simp [alUpsert, h, List.lookup, hb2, ih]

theorem recv_ack_eq (member : Member) (ml : MemberList) :
    ∀ q : List (SockAddr × Ack),
      recv_ack member ml q =
        match firstMatch member q with
        | none => (false, ml, [])
        | some (ra, a) =>
            (true, ml.insert (finalAckFrom ra a) Health.alive,
              [Event.markAlive (finalAckFrom ra a)]) := by
  intro q
  induction q with
  | nil => simp [recv_ack, firstMatch, List.find?]
  | cons x rest ih =>
      by_cases h : x.2.from_.id == member.id
      · simp [recv_ack, firstMatch, List.find?, h]
      · simp only [Bool.not_eq_true] at h
        simp [recv_ack, firstMatch, List.find?, h] at ih ⊢
        exact ih

theorem sendPingReqs_ok (member : Member) :
    ∀ ts : List Member,
      (∀ t ∈ ts, (parseSocketAddr t.address).isSome = true) →
      sendPingReqs member ts =
        Except.ok (ts.map (fun t => Event.sendPingReq t.id member.id)) := by
  intro ts
  induction ts with
  | nil => intro _; simp [sendPingReqs]
  | cons t rest ih =>
      intro h
      have ht : (parseSocketAddr t.address).isSome = true := h t (by simp)
      match hp : parseSocketAddr t.address with
      | none => rw [hp] at ht; simp at ht
      | some a =>
          have hrest := ih (fun x hx => h x (by simp [hx]))
          simp [sendPingReqs, hp, hrest, Except.map]

theorem healthEvents_append :
    ∀ xs ys : List Event, healthEvents (xs ++ ys) = healthEvents xs ++ healthEvents ys := by
  intro xs ys
  induction xs with
  | nil => simp [healthEvents]
  | cons e rest ih => cases e <;> simp [healthEvents, ih]

theorem healthEvents_map_pingreq (member : Member) (ts : List Member) :
    healthEvents (ts.map (fun t => Event.sendPingReq t.id member.id)) = [] := by
  induction ts with
  | nil => simp [healthEvents]
  | cons t rest ih => simp [healthEvents, ih]

theorem filter_member_one (s : String) :
    ∀ l : List Member, (l.map Member.id).Nodup → s ∈ l.map Member.id →
      (l.filter (fun m => m.id != s)).length = l.length - 1 := by
  intro l
  induction l with
  | nil => intro _ hm; simp at hm
  | cons m rest ih =>
      intro hnd hm
      simp only [List.map_cons, List.nodup_cons] at hnd
      by_cases h : m.id = s
      · have hrest : ∀ x ∈ rest, (x.id != s) = true := by
          intro x hx
          have hxs : x.id ≠ s := by
            intro hxe
            apply hnd.1
            rw [h, ← hxe]
            exact List.mem_map_of_mem Member.id hx
          exact bne_iff_ne.mpr hxs
        have hb : (m.id != s) = false := by simp [bne, h]
        simp [List.filter_cons, hb, List.filter_eq_self.mpr hrest]
      · have hm2 : s ∈ rest.map Member.id := by
          simp only [List.map_cons, List.mem_cons] at hm
          rcases hm with hm | hm
          · exact absurd hm.symm h
          · exact hm
        have hpos : 0 < rest.length := by
          simpa using List.length_pos_of_mem hm2
        have hrec := ih hnd.2 hm2
        have hb : (m.id != s) = true := bne_iff_ne.mpr h
        simp only [List.filter_cons, hb, List.length_cons]
        rw [if_pos trivial]
        simp only [List.length_cons]
        omega

theorem filter_member_two (s t : String) (hst : s ≠ t) :
    ∀ l : List Member, (l.map Member.id).Nodup → s ∈ l.map Member.id →
      t ∈ l.map Member.id →
      (l.filter (fun m => m.id != s && m.id != t)).length = l.length - 2 := by
  intro l
  induction l with
  | nil => intro _ hm _; simp at hm
  | cons m rest ih =>
      intro hnd hs ht
      simp only [List.map_cons, List.nodup_cons] at hnd
      by_cases h1 : m.id = s
      · have ht2 : t ∈ rest.map Member.id := by
          simp only [List.map_cons, List.mem_cons] at ht
          rcases ht with ht | ht
          · exact absurd (ht.trans h1) (Ne.symm hst)
          · exact ht
        have hcongr : rest.filter (fun m => m.id != s && m.id != t)
            = rest.filter (fun m => m.id != t) := by
          apply List.filter_congr
          intro x hx
          have hxs : x.id ≠ s := by
            intro hxe
            apply hnd.1
            rw [h1, ← hxe]
            exact List.mem_map_of_mem Member.id hx
          simp [bne_iff_ne.mpr hxs]
        have hpos : 0 < rest.length := by simpa using List.length_pos_of_mem ht2
        have hb : (m.id != s && m.id != t) = false := by simp [bne, h1]
        simp only [List.filter_cons, hb, List.length_cons]
        rw [if_neg Bool.false_ne_true, hcongr, filter_member_one t rest hnd.2 ht2]
        omega
      · by_cases h2 : m.id = t
        · have hs2 : s ∈ rest.map Member.id := by
            simp only [List.map_cons, List.mem_cons] at hs
            rcases hs with hs | hs
            · exact absurd (hs.trans h2) hst
            · exact hs
          have hcongr : rest.filter (fun m => m.id != s && m.id != t)
              = rest.filter (fun m => m.id != s) := by
            apply List.filter_congr
            intro x hx
            have hxt : x.id ≠ t := by
              intro hxe
              apply hnd.1
              rw [h2, ← hxe]
              exact List.mem_map_of_mem Member.id hx
            simp [bne_iff_ne.mpr hxt]
          have hpos : 0 < rest.length := by simpa using List.length_pos_of_mem hs2
          have hb : (m.id != s && m.id != t) = false := by simp [bne, h2]
          simp only [List.filter_cons, hb, List.length_cons]
          rw [if_neg Bool.false_ne_true, hcongr, filter_member_one s rest hnd.2 hs2]
          omega
        · have hs2 : s ∈ rest.map Member.id := by
            simp only [List.map_cons, List.mem_cons] at hs
            rcases hs with hs | hs
            · exact absurd hs.symm h1
            · exact hs
          have ht2 : t ∈ rest.map Member.id := by
            simp only [List.map_cons, List.mem_cons] at ht
            rcases ht with ht | ht
            · exact absurd ht.symm h2
            · exact ht
          have hlen2 : 2 ≤ rest.length := by
            rcases List.append_of_mem hs2 with ⟨u, v, huv⟩
            have htuv : t ∈ u ++ s :: v := by rw [← huv]; exact ht2
            have hlenmap : (rest.map Member.id).length = rest.length :=
              List.length_map rest Member.id
            have hlen : (rest.map Member.id).length = u.length + (v.length + 1) := by
              rw [huv]; simp
            rcases List.mem_append.mp htuv with h | h
            · have := List.length_pos_of_mem h
              omega
            · rcases List.mem_cons.mp h with h | h
              · exact absurd h (Ne.symm hst)
              · have := List.length_pos_of_mem h
                omega
          have hrec := ih hnd.2 hs2 ht2
          have hb : (m.id != s && m.id != t) = true := by
            simp [bne_iff_ne.mpr h1, bne_iff_ne.mpr h2]
          simp only [List.filter_cons, hb, List.length_cons]
          rw [if_pos trivial]
          simp only [List.length_cons]
          omega

theorem recv_ack_eq_none (member : Member) (ml : MemberList)
    (q : List (SockAddr × Ack)) (h : firstMatch member q = none) :
    recv_ack member ml q = (false, ml, []) := by
  rw [recv_ack_eq member ml q, h]

theorem recv_ack_eq_some (member : Member) (ml : MemberList)
    (q : List (SockAddr × Ack)) (ra : SockAddr) (a : Ack)
    (h : firstMatch member q = some (ra, a)) :
    recv_ack member ml q
      = (true, ml.insert (finalAckFrom ra a) Health.alive,
          [Event.markAlive (finalAckFrom ra a)]) := by
  rw [recv_ack_eq member ml q, h]

theorem firstMatch_id (member : Member) (q : List (SockAddr × Ack))
    (ra : SockAddr) (a : Ack) (h : firstMatch member q = some (ra, a)) :
    a.from_.id = member.id := by
  unfold firstMatch at h
  have hpred := List.find?_some h
  simpa using hpred

theorem finalAckFrom_id (ra : SockAddr) (a : Ack) :
    (finalAckFrom ra a).id = a.from_.id := by
  cases hfa : a.forward_to <;> simp [finalAckFrom, hfa]

theorem lookup_insert_alive (ml : MemberList) (ra : SockAddr) (a : Ack)
    (member : Member) (hid : a.from_.id = member.id) :
    List.lookup member.id
      (ml.insert (finalAckFrom ra a) Health.alive).health = some Health.alive := by
  rw [← hid, ← finalAckFrom_id ra a]
  exact lookup_alUpsert_self _ _ ml.health

theorem sendPingReqs_events (member : Member) :
    ∀ (ts : List Member) (tevs : List Event),
      sendPingReqs member ts = Except.ok tevs → healthEvents tevs = [] := by
  intro ts
  induction ts with
  | nil =>
      intro tevs h
      simp [sendPingReqs] at h
      subst h
      rfl
  | cons t rest ih =>
      intro tevs h
      cases hp : parseSocketAddr t.address with
      | none => rw [sendPingReqs, hp] at h; exact absurd h (by simp)
      | some fa =>
          rw [sendPingReqs, hp] at h
          cases hrec : sendPingReqs member rest with
          | error e => rw [hrec] at h; exact absurd h (by simp [Except.map])
          | ok evs =>
              rw [hrec] at h
              simp [Except.map] at h
              subst h
              simp [healthEvents, ih evs hrec]

theorem socket_address_ok (member : Member) (addr : SockAddr)
    (haddr : parseSocketAddr member.address = some addr) :
    Member.socket_address member = Except.ok addr := by
  simp [Member.socket_address, haddr]

theorem probe_eq_ping_match (me member : Member) (ml : MemberList)
    (shuffled : List Member) (pingQ pingreqQ : List (SockAddr × Ack))
    (addr : SockAddr) (ra : SockAddr) (a : Ack)
    (haddr : parseSocketAddr member.address = some addr)
    (hf : firstMatch member pingQ = some (ra, a)) :
    probe me member ml shuffled pingQ pingreqQ
      = Except.ok (ml.insert (finalAckFrom ra a) Health.alive,
          [Event.sendPing addr, Event.markAlive (finalAckFrom ra a)]) := by
  simp only [probe, socket_address_ok member addr haddr,
    recv_ack_eq_some member ml pingQ ra a hf]

theorem probe_eq_pingreq_match (me member : Member) (ml : MemberList)
    (shuffled : List Member) (pingQ pingreqQ : List (SockAddr × Ack))
    (addr : SockAddr) (ra : SockAddr) (a : Ack) (tevs : List Event)
    (haddr : parseSocketAddr member.address = some addr)
    (hf1 : firstMatch member pingQ = none)
    (hsp : sendPingReqs member (pingreq_targets shuffled me member) = Except.ok tevs)
    (hf2 : firstMatch member pingreqQ = some (ra, a)) :
    probe me member ml shuffled pingQ pingreqQ
      = Except.ok ((ml.insert_health member Health.suspect).insert
            (finalAckFrom ra a) Health.alive,
          Event.sendPing addr :: Event.markSuspect member.id ::
            (tevs ++ [Event.markAlive (finalAckFrom ra a)])) := by
  simp only [probe, socket_address_ok member addr haddr,
    recv_ack_eq_none member ml pingQ hf1, hsp,
    recv_ack_eq_some member (ml.insert_health member Health.suspect) pingreqQ ra a hf2]

theorem probe_eq_both_timeout (me member : Member) (ml : MemberList)
    (shuffled : List Member) (pingQ pingreqQ : List (SockAddr × Ack))
    (addr : SockAddr) (tevs : List Event)
    (haddr : parseSocketAddr member.address = some addr)
    (hf1 : firstMatch member pingQ = none)
    (hsp : sendPingReqs member (pingreq_targets shuffled me member) = Except.ok tevs)
    (hf2 : firstMatch member pingreqQ = none) :
    probe me member ml shuffled pingQ pingreqQ
      = Except.ok ((ml.insert_health member Health.suspect).insert_health member
            Health.confirmed,
          Event.sendPing addr :: Event.markSuspect member.id ::
            (tevs ++ [Event.markConfirmed member.id])) := by
  simp only [probe, socket_address_ok member addr haddr,
    recv_ack_eq_none member ml pingQ hf1, hsp,
    recv_ack_eq_none member (ml.insert_health member Health.suspect) pingreqQ hf2]

theorem probe_eq_parse_fail (me member : Member) (ml : MemberList)
    (shuffled : List Member) (pingQ pingreqQ : List (SockAddr × Ack))
    (hp : parseSocketAddr member.address = none) :
    probe me member ml shuffled pingQ pingreqQ
      = Except.error ("Cannot parse member address: " ++ member.address) := by
  simp [probe, Member.socket_address, hp]

theorem probe_eq_sendfail (me member : Member) (ml : MemberList)
    (shuffled : List Member) (pingQ pingreqQ : List (SockAddr × Ack))
    (addr : SockAddr) (e : String)
    (haddr : parseSocketAddr member.address = some addr)
    (hf1 : firstMatch member pingQ = none)
    (hsp : sendPingReqs member (pingreq_targets shuffled me member)
        = Except.error e) :
    probe me member ml shuffled pingQ pingreqQ = Except.error e := by
  simp only [probe, socket_address_ok member addr haddr,
    recv_ack_eq_none member ml pingQ hf1, hsp]

/-! Claim theorems. -/

/-- C3 counterexample: the default Timing's `pingreq_ms` is not 1100 as the
claim states; the source constant `PINGREQ_TIMING_DEFAULT_MS` is 2100. -/
theorem timing_default_c3_cex : Timing.default.pingreq_ms ≠ 1100 := by decide

/-- C3 (amended): the default Timing configuration has `ping_ms = 1000` and
`pingreq_ms = 2100`, so the default protocol period
(`ping_ms + pingreq_ms`) is 3100 ms. -/
theorem timing_default_c3_amended :
    Timing.default.ping_ms = 1000 ∧ Timing.default.pingreq_ms = 2100 ∧
      Timing.default.protocol_period_ms = 3100 := by decide

/-- C9 counterexample: `insert_health` called with a member whose id is
absent from the member map creates a health entry with no member entry,
so the key-set invariant does not hold after that operation. -/
theorem memberlist_c9_cex :
    ¬ keysEqInvariant (MemberList.new.insert_health mA Health.suspect) := by
  intro h
  have h2 := (h "a").mpr (by decide)
  exact absurd h2 (by decide)

/-- C9 (amended): `insert` preserves the key-set invariant of MemberList,
and `insert_health` preserves it whenever the member's id already has an
entry in the member map (which is how the Prober uses it); `insert_health`
on an absent id is the one operation that can break it. -/
theorem memberlist_c9_amended :
    (∀ (ml : MemberList) (m : Member) (h : Health),
        keysEqInvariant ml → keysEqInvariant (ml.insert m h)) ∧
    (∀ (ml : MemberList) (m : Member) (h : Health),
        keysEqInvariant ml → (List.lookup m.id ml.members).isSome = true →
        keysEqInvariant (ml.insert_health m h)) := by
  constructor
  · intro ml m h hinv k
    by_cases hk : k = m.id
    · rw [hk]
      show (List.lookup m.id (alUpsert m.id m ml.members)).isSome = true ↔
        (List.lookup m.id (alUpsert m.id h ml.health)).isSome = true
      rw [lookup_alUpsert_self m.id m ml.members, lookup_alUpsert_self m.id h ml.health]
      simp
    · show (List.lookup k (alUpsert m.id m ml.members)).isSome = true ↔
        (List.lookup k (alUpsert m.id h ml.health)).isSome = true
      rw [lookup_alUpsert_ne m.id k m hk ml.members,
        lookup_alUpsert_ne m.id k h hk ml.health]
      exact hinv k
  · intro ml m h hinv hmem k
    by_cases hk : k = m.id
    · rw [hk]
      show (List.lookup m.id ml.members).isSome = true ↔
        (List.lookup m.id (alUpsert m.id h ml.health)).isSome = true
      rw [lookup_alUpsert_self m.id h ml.health]
      simp [hmem]
    · show (List.lookup k ml.members).isSome = true ↔
        (List.lookup k (alUpsert m.id h ml.health)).isSome = true
      rw [lookup_alUpsert_ne m.id k h hk ml.health]
      exact hinv k

/-- C9 amended witness: the preserved invariant at concrete inputs,
obtained by applying both halves of the amended theorem. -/
theorem memberlist_c9_amended_witness :
    keysEqInvariant
      ((MemberList.new.insert mA Health.alive).insert_health mA Health.suspect) :=
  memberlist_c9_amended.2 (MemberList.new.insert mA Health.alive) mA Health.suspect
    (memberlist_c9_amended.1 MemberList.new mA Health.alive (fun _ => Iff.rfl))
    (by decide)

/-- C5 counterexample: an ACK whose `forward_to` has an id different from
the local member's but an unparseable address is dropped by
`process_ack`, not re-sent to `forward_to.address` as the claim states. -/
theorem process_ack_c5_cex :
    process_ack meW srcW ackBadFwd = AckAction.dropped ∧
      ackBadFwd.forward_to = some mBad ∧ mBad.id ≠ meW.id := by decide

/-- C5 (amended): an ACK carrying a `forward_to` whose id differs from the
local member's id is re-sent verbatim to the parse of
`forward_to.address` and not queued, provided that address parses; when
it does not parse the ACK is dropped entirely (neither forwarded nor
queued); otherwise (no `forward_to`, or `forward_to.id` equal to the
local id) the pair is queued to the Prober and never forwarded. -/
theorem process_ack_c5_amended (me : Member) (src : SockAddr) (a : Ack) :
    (∀ fwd, a.forward_to = some fwd → fwd.id ≠ me.id →
        (∀ fa, parseSocketAddr fwd.address = some fa →
            process_ack me src a = AckAction.forwarded fa a) ∧
        (parseSocketAddr fwd.address = none →
            process_ack me src a = AckAction.dropped)) ∧
    (a.forward_to = none → process_ack me src a = AckAction.queued src a) ∧
    (∀ fwd, a.forward_to = some fwd → fwd.id = me.id →
        process_ack me src a = AckAction.queued src a) := by
  refine ⟨?_, ?_, ?_⟩
  · intro fwd hf hne
    constructor
    · intro fa hp
      simp [process_ack, hf, hp, Ne.symm hne]
    · intro hp
      simp [process_ack, hf, hp, Ne.symm hne]
  · intro hf
    simp [process_ack, hf]
  · intro fwd hf heq
    simp [process_ack, hf, heq]

/-- C5 amended witness: a concrete forwardable ACK is re-sent verbatim to
the parsed `forward_to.address`. -/
theorem process_ack_c5_amended_witness :
    process_ack meW srcW ackFwdB
      = AckAction.forwarded { host := "10.0.0.2", port := 80 } ackFwdB :=
  ((process_ack_c5_amended meW srcW ackFwdB).1 mB rfl (by decide)).1
    { host := "10.0.0.2", port := 80 } (by decide)

/-- C6: for every processed PING, the reply ACK goes to the observed source
address and copies the PING's `forward_to`; the PING's `from` is upserted
Alive with its address replaced by the observed source address, whatever
address the message carried. -/
theorem process_ping_c6_spec (me : Member) (ml : MemberList) (src : SockAddr)
    (p : Ping) :
    (process_ping me ml src p).1 = (src, { from_ := me, forward_to := p.forward_to }) ∧
    List.lookup p.from_.id (process_ping me ml src p).2.members
      = some { p.from_ with address := src.toStr } ∧
    List.lookup p.from_.id (process_ping me ml src p).2.health
      = some Health.alive := by
  refine ⟨rfl, ?_, ?_⟩
  · exact lookup_alUpsert_self p.from_.id _ ml.members
  · exact lookup_alUpsert_self p.from_.id _ ml.health

/-- C10: the PING handler never compares the PING's `from.id` with the
local id: a PING carrying the receiving server's own id still upserts the
(address-stamped) sender record as Alive, and the resulting member list
does not depend on the local member at all. -/
theorem process_ping_c10_self (me : Member) (ml : MemberList) (src : SockAddr)
    (p : Ping) (hid : p.from_.id = me.id) :
    List.lookup me.id (process_ping me ml src p).2.members
      = some { p.from_ with address := src.toStr } ∧
    List.lookup me.id (process_ping me ml src p).2.health = some Health.alive ∧
    (∀ other : Member, (process_ping other ml src p).2 = (process_ping me ml src p).2) := by
  refine ⟨?_, ?_, fun other => rfl⟩
  · rw [← hid]
    exact lookup_alUpsert_self p.from_.id _ ml.members
  · rw [← hid]
    exact lookup_alUpsert_self p.from_.id _ ml.health

/-- C10 witness: a concrete self-addressed PING inserts a self entry
Alive. -/
theorem process_ping_c10_witness :
    List.lookup meW.id (process_ping meW MemberList.new srcW pSelf).2.health
      = some Health.alive :=
  (process_ping_c10_self meW MemberList.new srcW pSelf rfl).2.1

/-- C7 counterexample: with `from = target` (the member present in the
list), the filter excludes a single id, so on the identity shuffle of a
3-member list `pingreq_targets` returns 2 members while the claim demands
`min(5, 3-2) = 1`. -/
theorem pingreq_targets_c7_cex :
    mA.id ∈ mlC7.members.map Prod.fst ∧
    (pingreq_targets mlC7.memberValues mA mA).length
      ≠ min 5 (mlC7.members.length - 2) := by
  constructor
  · decide
  · decide

/-- C7 (amended): for every shuffle of the member values,
`pingreq_targets(from, target)` contains no member whose id equals
`from.id` or `target.id`; and when `from.id` and `target.id` are distinct
and both present in a well-formed member list, its length is
`min(5, |members| - 2)` (floor at 0). -/
theorem pingreq_targets_c7_amended (ml : MemberList) (shuffled : List Member)
    (sending target : Member) (hperm : shuffled.Perm ml.memberValues)
    (hids : ∀ q ∈ ml.members, (Prod.snd q).id = q.1)
    (hnd : (ml.members.map Prod.fst).Nodup)
    (hs : sending.id ∈ ml.members.map Prod.fst)
    (ht : target.id ∈ ml.members.map Prod.fst)
    (hst : sending.id ≠ target.id) :
    (∀ m ∈ pingreq_targets shuffled sending target,
        m.id ≠ sending.id ∧ m.id ≠ target.id) ∧
    (pingreq_targets shuffled sending target).length
      = min 5 (ml.members.length - 2) := by
  have hidmap : ml.memberValues.map Member.id = ml.members.map Prod.fst := by
    unfold MemberList.memberValues
    rw [List.map_map]
    exact List.map_congr_left hids
  constructor
  · intro m hm
    have hm2 : m ∈ shuffled.filter
        (fun m => m.id != sending.id && m.id != target.id) :=
      List.take_subset _ _ hm
    have hpred := (List.mem_filter.mp hm2).2
    have hsplit : m.id ≠ sending.id ∧ m.id ≠ target.id := by simpa using hpred
    exact hsplit
  · show ((shuffled.filter
        (fun m => m.id != sending.id && m.id != target.id)).take
          PINGREQ_TARGETS).length = min 5 (ml.members.length - 2)
    rw [List.length_take]
    have hpf := (hperm.filter
      (fun m => m.id != sending.id && m.id != target.id)).length_eq
    rw [hpf]
    have hnd2 : (ml.memberValues.map Member.id).Nodup := by
      rw [hidmap]; exact hnd
    have hs2 : sending.id ∈ ml.memberValues.map Member.id := by
      rw [hidmap]; exact hs
    have ht2 : target.id ∈ ml.memberValues.map Member.id := by
      rw [hidmap]; exact ht
    rw [filter_member_two sending.id target.id hst ml.memberValues hnd2 hs2 ht2]
    unfold MemberList.memberValues
    rw [List.length_map]
    rfl

/-- C7 amended witness: on the identity shuffle of the concrete 3-member
list with distinct from and target, the result has length
`min(5, 3-2) = 1`. -/
theorem pingreq_targets_c7_amended_witness :
    (pingreq_targets mlC7.memberValues mA mB).length
      = min 5 (mlC7.members.length - 2) :=
  (pingreq_targets_c7_amended mlC7 mlC7.memberValues mA mB (List.Perm.refl _)
    (by decide) (by decide) (by decide) (by decide) (by decide)).2

/-- C8 counterexample: probing a member whose address does not parse
panics (modelled as `Except.error`) in `Member::socket_address` instead of
logging and dropping the operation as the claim states. -/
theorem probe_c8_cex :
    probe meW mBad MemberList.new [] [] []
      = Except.error ("Cannot parse member address: " ++ mBad.address) := rfl

/-- C8 (amended): an ACK forward whose `forward_to.address` does not parse
is logged and dropped with no panic and no other state change; but every
probe of a member whose own address does not parse panics via
`Member::socket_address` (as does the Prober's per-member blacklist
check, which calls the same function). -/
theorem address_parse_c8_amended :
    (∀ (me : Member) (src : SockAddr) (a : Ack) (fwd : Member),
        a.forward_to = some fwd → fwd.id ≠ me.id →
        parseSocketAddr fwd.address = none →
        process_ack me src a = AckAction.dropped) ∧
    (∀ (me member : Member) (ml : MemberList) (shuffled : List Member)
        (pingQ pingreqQ : List (SockAddr × Ack)),
        parseSocketAddr member.address = none →
        probe me member ml shuffled pingQ pingreqQ
          = Except.error ("Cannot parse member address: " ++ member.address)) := by
  constructor
  · intro me src a fwd hf hne hp
    simp [process_ack, hf, hp, Ne.symm hne]
  · intro me member ml shuffled pingQ pingreqQ hp
    simp [probe, Member.socket_address, hp]

/-- C8 amended witness: the concrete drop of a bad ACK forward and the
concrete panic of a probe with a bad member address. -/
theorem address_parse_c8_amended_witness :
    process_ack mB srcW ackBadFwd = AckAction.dropped ∧
    probe meW mBad mlC7 [] [] []
      = Except.error ("Cannot parse member address: " ++ mBad.address) :=
  ⟨address_parse_c8_amended.1 mB srcW ackBadFwd mBad rfl (by decide) (by decide),
   address_parse_c8_amended.2 meW mBad mlC7 [] [] [] (by decide)⟩

/-- C2: while probing, an inbound item is matched iff `ack.from.id`
equals the probed member's id; non-matching items are discarded and the
wait continues (so the result is decided by the first match, if any); on
a match, the stored member keeps the ACK's embedded address when
`forward_to` is present and takes the observed socket source address
otherwise, and is upserted into the member list with health Alive. -/
theorem recv_ack_c2_spec (member : Member) (ml : MemberList)
    (q : List (SockAddr × Ack)) :
    ((recv_ack member ml q).1 = true ↔ ∃ x ∈ q, x.2.from_.id = member.id) ∧
    (firstMatch member q = none → recv_ack member ml q = (false, ml, [])) ∧
    (∀ ra a, firstMatch member q = some (ra, a) →
        a.from_.id = member.id ∧
        recv_ack member ml q
          = (true, ml.insert (finalAckFrom ra a) Health.alive,
              [Event.markAlive (finalAckFrom ra a)]) ∧
        (a.forward_to = none →
            finalAckFrom ra a = { a.from_ with address := ra.toStr }) ∧
        (∀ fwd, a.forward_to = some fwd → finalAckFrom ra a = a.from_) ∧
        List.lookup member.id
            (ml.insert (finalAckFrom ra a) Health.alive).health
          = some Health.alive) := by
  refine ⟨?_, ?_, ?_⟩
  · constructor
    · intro htrue
      cases hf : firstMatch member q with
      | none =>
          rw [recv_ack_eq_none member ml q hf] at htrue
          exact absurd htrue (by simp)
      | some x =>
          obtain ⟨ra, a⟩ := x
          unfold firstMatch at hf
          have hmem := List.mem_of_find?_eq_some hf
          have hpred := List.find?_some hf
          exact ⟨(ra, a), hmem, by simpa using hpred⟩
    · intro hex
      obtain ⟨x, hx, hid⟩ := hex
      cases hf : firstMatch member q with
      | some y =>
          obtain ⟨ra, a⟩ := y
          rw [recv_ack_eq_some member ml q ra a hf]
      | none =>
          unfold firstMatch at hf
          have hall := List.find?_eq_none.mp hf x hx
          exact absurd (by simpa using hid) hall
  · exact recv_ack_eq_none member ml q
  · intro ra a hf
    have hid := firstMatch_id member q ra a hf
    refine ⟨hid, recv_ack_eq_some member ml q ra a hf, ?_, ?_, ?_⟩
    · intro hnone
      simp [finalAckFrom, hnone]
    · intro fwd hsome
      simp [finalAckFrom, hsome]
    · exact lookup_insert_alive ml ra a member hid

/-- C2 witness: a concrete matching ACK is accepted and upserted Alive
with the observed source address stamped in. -/
theorem recv_ack_c2_witness :
    recv_ack mA MemberList.new [(srcW, ackFromA)]
      = (true, MemberList.new.insert (finalAckFrom srcW ackFromA) Health.alive,
          [Event.markAlive (finalAckFrom srcW ackFromA)]) :=
  ((recv_ack_c2_spec mA MemberList.new [(srcW, ackFromA)]).2.2 srcW ackFromA
    (by decide)).2.1

/-- C1: full case behaviour of one probe invocation. A matching ACK in the
ping phase records the member Alive and nothing further is sent; on
ping-phase timeout the member is marked Suspect and a PINGREQ goes to each
of the (at most 5) helper targets; a matching ACK in the pingreq phase
records the member Alive; on pingreq-phase timeout the member is marked
Confirmed, and along that double-timeout path no Alive is ever written. -/
theorem probe_c1_spec (me member : Member) (ml : MemberList)
    (shuffled : List Member) (pingQ pingreqQ : List (SockAddr × Ack))
    (addr : SockAddr) (haddr : parseSocketAddr member.address = some addr)
    (hhelp : ∀ t ∈ pingreq_targets shuffled me member,
        (parseSocketAddr t.address).isSome = true) :
    (∀ ra a, firstMatch member pingQ = some (ra, a) →
        probe me member ml shuffled pingQ pingreqQ
          = Except.ok (ml.insert (finalAckFrom ra a) Health.alive,
              [Event.sendPing addr, Event.markAlive (finalAckFrom ra a)]) ∧
        List.lookup member.id
            (ml.insert (finalAckFrom ra a) Health.alive).health
          = some Health.alive) ∧
    (firstMatch member pingQ = none →
        (pingreq_targets shuffled me member).length ≤ 5 ∧
        (∀ ra a, firstMatch member pingreqQ = some (ra, a) →
            probe me member ml shuffled pingQ pingreqQ
              = Except.ok ((ml.insert_health member Health.suspect).insert
                    (finalAckFrom ra a) Health.alive,
                  Event.sendPing addr :: Event.markSuspect member.id ::
                    ((pingreq_targets shuffled me member).map
                        (fun t => Event.sendPingReq t.id member.id)
                      ++ [Event.markAlive (finalAckFrom ra a)])) ∧
            List.lookup member.id
                ((ml.insert_health member Health.suspect).insert
                  (finalAckFrom ra a) Health.alive).health
              = some Health.alive) ∧
        (firstMatch member pingreqQ = none →
            probe me member ml shuffled pingQ pingreqQ
              = Except.ok
                  ((ml.insert_health member Health.suspect).insert_health
                      member Health.confirmed,
                    Event.sendPing addr :: Event.markSuspect member.id ::
                      ((pingreq_targets shuffled me member).map
                          (fun t => Event.sendPingReq t.id member.id)
                        ++ [Event.markConfirmed member.id])) ∧
            List.lookup member.id
                ((ml.insert_health member Health.suspect).insert_health
                    member Health.confirmed).health
              = some Health.confirmed ∧
            healthEvents
                (Event.sendPing addr :: Event.markSuspect member.id ::
                  ((pingreq_targets shuffled me member).map
                      (fun t => Event.sendPingReq t.id member.id)
                    ++ [Event.markConfirmed member.id]))
              = [Health.suspect, Health.confirmed])) := by
  have hsp := sendPingReqs_ok member (pingreq_targets shuffled me member) hhelp
  constructor
  · intro ra a hf
    refine ⟨probe_eq_ping_match me member ml shuffled pingQ pingreqQ addr ra a
        haddr hf, ?_⟩
    exact lookup_insert_alive ml ra a member (firstMatch_id member pingQ ra a hf)
  · intro hf1
    refine ⟨List.length_take_le PINGREQ_TARGETS _, ?_, ?_⟩
    · intro ra a hf2
      refine ⟨probe_eq_pingreq_match me member ml shuffled pingQ pingreqQ addr
          ra a _ haddr hf1 hsp hf2, ?_⟩
      exact lookup_insert_alive (ml.insert_health member Health.suspect) ra a
        member (firstMatch_id member pingreqQ ra a hf2)
    · intro hf2
      refine ⟨probe_eq_both_timeout me member ml shuffled pingQ pingreqQ addr
          _ haddr hf1 hsp hf2, ?_, ?_⟩
      · exact lookup_alUpsert_self member.id Health.confirmed _
      · simp [healthEvents, healthEvents_append,
          healthEvents_map_pingreq member (pingreq_targets shuffled me member)]

/-- C1 witness: the concrete ping-phase match records the member Alive
with the observed source address and sends nothing beyond the PING. -/
theorem probe_c1_witness :
    probe meW mA MemberList.new [] [(srcW, ackFromA)] []
      = Except.ok (MemberList.new.insert (finalAckFrom srcW ackFromA)
            Health.alive,
          [Event.sendPing { host := "10.0.0.1", port := 80 },
            Event.markAlive (finalAckFrom srcW ackFromA)]) :=
  ((probe_c1_spec meW mA MemberList.new [] [(srcW, ackFromA)] []
      { host := "10.0.0.1", port := 80 } (by decide)
      (by intro t ht; simp [pingreq_targets] at ht)).1 srcW ackFromA
    (by decide)).1

/-- C4 counterexample: a member whose health is Confirmed at the start of
the probe is re-recorded Alive when a matching ACK is consumed — a health
transition away from Confirmed within a single probe call, which the
claim rules out. -/
theorem probe_c4_cex :
    (MemberList.new.insert mA Health.confirmed).health_of mA
        = some Health.confirmed ∧
      probe meW mA (MemberList.new.insert mA Health.confirmed) []
          [(srcW, ackFromA)] []
        = Except.ok ((MemberList.new.insert mA Health.confirmed).insert
              (finalAckFrom srcW ackFromA) Health.alive,
            [Event.sendPing { host := "10.0.0.1", port := 80 },
              Event.markAlive (finalAckFrom srcW ackFromA)]) ∧
      ((MemberList.new.insert mA Health.confirmed).insert
          (finalAckFrom srcW ackFromA) Health.alive).health_of mA
        = some Health.alive :=
  ⟨rfl, rfl, rfl⟩

/-- C4 (amended): whatever the member's starting health, the sequence of
health values one probe writes for it is exactly [Alive] (ping-phase
match), [Suspect, Alive] (pingreq-phase match) or [Suspect, Confirmed]
(double timeout); the writes do not consult the starting health, so a
member Confirmed at the start of the probe is re-marked Alive on a
matching ACK and Suspect on a ping timeout. -/
theorem probe_c4_amended (me member : Member) (ml : MemberList)
    (shuffled : List Member) (pingQ pingreqQ : List (SockAddr × Ack))
    (res : MemberList × List Event)
    (hok : probe me member ml shuffled pingQ pingreqQ = Except.ok res) :
    healthEvents res.2 = [Health.alive] ∨
    healthEvents res.2 = [Health.suspect, Health.alive] ∨
    healthEvents res.2 = [Health.suspect, Health.confirmed] := by
  cases hsa : parseSocketAddr member.address with
  | none =>
      rw [probe_eq_parse_fail me member ml shuffled pingQ pingreqQ hsa] at hok
      exact absurd hok (by simp)
  | some addr =>
      cases hf1 : firstMatch member pingQ with
      | some x =>
          obtain ⟨ra, a⟩ := x
          rw [probe_eq_ping_match me member ml shuffled pingQ pingreqQ addr
            ra a hsa hf1] at hok
          have hres := (Except.ok.inj hok).symm
          rw [hres]
          left
          rfl
      | none =>
          cases hspc : sendPingReqs member (pingreq_targets shuffled me member) with
          | error e =>
              rw [probe_eq_sendfail me member ml shuffled pingQ pingreqQ addr
                e hsa hf1 hspc] at hok
              exact absurd hok (by simp)
          | ok tevs =>
              have htevs := sendPingReqs_events member
                (pingreq_targets shuffled me member) tevs hspc
              cases hf2 : firstMatch member pingreqQ with
              | some x =>
                  obtain ⟨ra, a⟩ := x
                  rw [probe_eq_pingreq_match me member ml shuffled pingQ
                    pingreqQ addr ra a tevs hsa hf1 hspc hf2] at hok
                  have hres := (Except.ok.inj hok).symm
                  rw [hres]
                  right; left
                  simp [healthEvents, healthEvents_append, htevs]
              | none =>
                  rw [probe_eq_both_timeout me member ml shuffled pingQ
                    pingreqQ addr tevs hsa hf1 hspc hf2] at hok
                  have hres := (Except.ok.inj hok).symm
                  rw [hres]
                  right; right
                  simp [healthEvents, healthEvents_append, htevs]

/-- C4 amended witness: the concrete ping-phase match yields the health
write sequence [Alive]. -/
theorem probe_c4_amended_witness :
    healthEvents probeResW.2 = [Health.alive] ∨
    healthEvents probeResW.2 = [Health.suspect, Health.alive] ∨
    healthEvents probeResW.2 = [Health.suspect, Health.confirmed] :=
  probe_c4_amended meW mA MemberList.new [] [(srcW, ackFromA)] [] probeResW rfl

end Swim
